import Mathlib

/-!
Verification of the digital-filter core of GROOPS
(`source/classes/digitalFilter/digitalFilter.cpp`).

Modelling conventions:
* `Matrix` (dense, zero-initialised) is modelled as `Mat`: explicit row and
  column counts plus a total entry function into `ℚ` (out-of-range entries
  are junk `0` and are never compared; `MatEq` compares shape and all
  in-range entries).
* C++ `UInt` size arithmetic is modelled with truncated `Nat` subtraction.
* C++ exceptions are modelled with `Except Err`.
* `Double` is modelled by exact `ℚ`; complex numbers by pairs of rationals
  (`Cplx`).  The external FFT pair (`base/fourier.h`, not part of this
  translation unit) is kept abstract: the model takes the forward analysis
  `fft` and the inverse `synthesis` as function parameters, so every theorem
  quantifying over them covers the real transforms as a special case.
-/

namespace GroopsDigitalFilter

/-- Error kinds raised by the digital-filter core (the `throw(Exception(...))`
sites in digitalFilter.cpp).  `outOfRange` models `std::out_of_range` raised
by a checked `std::vector::at` access. -/
inductive Err : Type where
  | zeroLengthInput
  | invalidPadding
  | insufficientInput
  | lengthTooShort
  | outOfRange
deriving DecidableEq, Repr

/-- `DigitalFilterBase::PadType`. -/
inductive PadType : Type where
  | none
  | zero
  | constant
  | periodic
  | symmetric
deriving DecidableEq, Repr

/-- Dense matrix: row/column counts plus a total entry function. -/
structure Mat : Type where
  rows : Nat
  cols : Nat
  entries : Nat → Nat → ℚ

/-- Zero-initialised matrix, as built by the C++ `Matrix(rows, columns)`
constructor. -/
def Mat.zero (r c : Nat) : Mat := ⟨r, c, fun _ _ => 0⟩

/-- Matrix literal from a list of rows. -/
def Mat.ofLists (l : List (List ℚ)) : Mat :=
  ⟨l.length, (l.headD []).length, fun i j => (l.getD i []).getD j 0⟩

/-- In-range entries of a matrix, row by row (used to state decidable
concrete equalities). -/
def Mat.toLists (a : Mat) : List (List ℚ) :=
  (List.range a.rows).map fun i => (List.range a.cols).map fun j => a.entries i j

/-- Read-only submatrix view `a.slice(row, col, height, width)`. -/
def Mat.slice (a : Mat) (r c h w : Nat) : Mat :=
  ⟨h, w, fun i j => if i < h ∧ j < w then a.entries (r + i) (c + j) else 0⟩

/-- Extensional matrix equality: same shape and same in-range entries
(what `==` on the C++ dense matrices means). -/
def MatEq (a b : Mat) : Prop :=
  a.rows = b.rows ∧ a.cols = b.cols ∧
    ∀ i, i < a.rows → ∀ j, j < a.cols → a.entries i j = b.entries i j

instance (a b : Mat) : Decidable (MatEq a b) := by
  unfold MatEq; infer_instance

/-- Boolean success test for `Except` results. -/
def exOk {α : Type} : Except Err α → Bool
  | .ok _ => true
  | .error _ => false

/-- `DigitalFilterBase::pad(input, length, timeShift, padType)`.
For `NONE` with `timeShift > 0` the appended rows stay zero-initialised.
For the other policies the result has `2*length + rows + timeShift` rows
with the input copied at row offset `length`; the `length` rows before and
after are filled per policy; the trailing `timeShift` rows stay zero.
The C++ `switch` covers every `PadType` constructor, so the `default`
(`Unknown pad type`) branch is unreachable and not modelled. -/
def pad (input : Mat) (length timeShift : Nat) (t : PadType) : Except Err Mat :=
  if t = PadType.none then
    if 0 < timeShift then
      .ok ⟨input.rows + timeShift, input.cols, fun i j =>
        if i < input.rows ∧ j < input.cols then input.entries i j else 0⟩
    else .ok input
  else if input.rows < 1 then .error .zeroLengthInput
  else if t = PadType.periodic ∧ input.rows < length then .error .invalidPadding
  else if t = PadType.symmetric ∧ input.rows < length + 1 then .error .invalidPadding
  else .ok ⟨2 * length + input.rows + timeShift, input.cols, fun i j =>
    if j < input.cols then
      if length ≤ i ∧ i < length + input.rows then input.entries (i - length) j
      else if i < length then
        match t with
        | PadType.constant => input.entries 0 j
        | PadType.periodic => input.entries (input.rows - length + i) j
        | PadType.symmetric => input.entries (length - i) j
        | _ => 0
      else if i < length + input.rows + length then
        match t with
        | PadType.constant => input.entries (input.rows - 1) j
        | PadType.periodic => input.entries (i - length - input.rows) j
        | PadType.symmetric => input.entries (input.rows - 2 - (i - length - input.rows)) j
        | _ => 0
      else 0
    else 0⟩

/-- `DigitalFilterBase::trim(input, length, timeShift, padType)`:
for `NONE` drop the first `timeShift` rows (if any); otherwise return the
`input.rows - 2*length - timeShift` rows starting at row
`length + timeShift`. -/
def trim (input : Mat) (length timeShift : Nat) (t : PadType) : Mat :=
  if t = PadType.none then
    if 0 < timeShift then
      ⟨input.rows - timeShift, input.cols, fun i j =>
        if i < input.rows - timeShift ∧ j < input.cols then input.entries (i + timeShift) j
        else 0⟩
    else input
  else
    ⟨input.rows - 2 * length - timeShift, input.cols, fun i j =>
      if i < input.rows - 2 * length - timeShift ∧ j < input.cols then
        input.entries (i + length + timeShift) j
      else 0⟩

/-- Concrete view of the pad/trim round trip: `none` on a pad error,
otherwise the entries of `trim (pad x)`. -/
def roundTrip (x : Mat) (length timeShift : Nat) (t : PadType) : Option (List (List ℚ)) :=
  ((pad x length timeShift t).map fun p => (trim p length timeShift t).toLists).toOption

/-- `DigitalFilterARMA::warmup()`:
`max(max(bn.rows()-bnStartIndex-1, bnStartIndex), 3*an.rows())` with C++
unsigned subtraction modelled by truncated `Nat` subtraction. -/
def warmup (bn an : List ℚ) (bnStartIndex : Nat) : Nat :=
  max (max (bn.length - bnStartIndex - 1) bnStartIndex) (3 * an.length)

/-- Complex number over exact rationals (models `std::complex<Double>`). -/
structure Cplx : Type where
  re : ℚ
  im : ℚ
deriving DecidableEq, Repr

def Cplx.zero : Cplx := ⟨0, 0⟩

def Cplx.one : Cplx := ⟨1, 0⟩

def Cplx.mul (a b : Cplx) : Cplx :=
  ⟨a.re * b.re - a.im * b.im, a.re * b.im + a.im * b.re⟩

/-- Squared magnitude; `abs2 a > 0 ↔ a ≠ 0`, the exact-arithmetic reading of
the C++ test `std::abs(a) > 0`. -/
def Cplx.abs2 (a : Cplx) : ℚ := a.re * a.re + a.im * a.im

/-- Complex division (exact); only ever applied with a nonzero divisor. -/
def Cplx.div (a b : Cplx) : Cplx :=
  ⟨(a.re * b.re + a.im * b.im) / Cplx.abs2 b, (a.im * b.re - a.re * b.im) / Cplx.abs2 b⟩

instance : One Cplx := ⟨Cplx.one⟩

instance : Mul Cplx := ⟨Cplx.mul⟩

/-- The five constructor parameters of `DigitalFilterARMA`. -/
structure ARMAConfig : Type where
  bn : List ℚ
  an : List ℚ
  bnStartIndex : Nat
  backward : Bool
  inFrequencyDomain : Bool
  padType : PadType

/-- Number of iterations of `for(idxStart = 0; idxStart < rows; idxStart += bs)`. -/
def numBlocks (rows bs : Nat) : Nat := (rows + bs - 1) / bs

/-- Banded (Toeplitz) coefficient matrix of shape `(v.length + bs - 1) × bs`:
column `k` holds `v` starting at row `k` (the C++ loop
`copy(v, B.slice(k, k, v.rows(), 1))` over a zero matrix). -/
def bandedMat (v : List ℚ) (bs : Nat) : Mat :=
  ⟨v.length + bs - 1, bs, fun i j =>
    if j ≤ i ∧ i < j + v.length then v.getD (i - j) 0 else 0⟩

/-- Inner product of row `i` of `A` with column `j` of `X`. -/
def dotp (A X : Mat) (i j : Nat) : ℚ :=
  ∑ k ∈ Finset.range A.cols, A.entries i k * X.entries k j

/-- `matMult(alpha, A, X, M.row(r, A.rows))`: accumulate `alpha * A * X`
into the row block of `M` starting at `r`. -/
def matAcc (alpha : ℚ) (A X M : Mat) (r : Nat) : Mat :=
  ⟨M.rows, M.cols, fun i j =>
    if r ≤ i ∧ i < r + A.rows ∧ j < X.cols then
      M.entries i j + alpha * dotp A X (i - r) j
    else M.entries i j⟩

/-- Feed-forward (FIR) pass of `DigitalFilterARMA::filter`: blocked banded
multiply of `bn` against the padded input, accumulated into a zero matrix. -/
def firPass (bn : List ℚ) (padded : Mat) : Mat :=
  let bs := min 64 padded.rows
  let B := bandedMat bn bs
  (List.range (numBlocks padded.rows bs)).foldl
    (fun out m =>
      let r := m * bs
      let cc := min (padded.rows - r) bs
      let rc := min (padded.rows - r) B.rows
      matAcc 1 (B.slice 0 0 rc cc) (padded.slice r 0 cc padded.cols) out r)
    (Mat.zero padded.rows padded.cols)

/-- Forward substitution for a lower-triangular system `L y = b` (first `n`
entries of one column), the meaning of the in-place `triangularSolve`. -/
def fsolveCol (L : Mat) (b : Nat → ℚ) (n : Nat) : List ℚ :=
  (List.range n).foldl
    (fun ys _ =>
      let i := ys.length
      ys ++ [(b i - ∑ k ∈ Finset.range i, L.entries i k * ys.getD k 0) / L.entries i i])
    []

/-- `triangularSolve(1.0, L, M.row(r, n))`: replace the row block
`[r, r+n)` of `M` by the solution of the lower-triangular system. -/
def triSolveRegion (L M : Mat) (r n : Nat) : Mat :=
  ⟨M.rows, M.cols, fun i j =>
    if r ≤ i ∧ i < r + n ∧ j < M.cols then
      (fsolveCol L (fun i2 => M.entries (r + i2) j) n).getD (i - r) 0
    else M.entries i j⟩

/-- Feedback (AR) pass of `DigitalFilterARMA::filter`: per block, subtract
the coupling from the previous block's trailing rows, then solve the
lower-triangular banded system built from `an`. -/
def arPass (an : List ℚ) (out0 : Mat) : Mat :=
  let bs := min 64 out0.rows
  let A := bandedMat an bs
  (List.range (numBlocks out0.rows bs)).foldl
    (fun out m =>
      let r := m * bs
      let cc := min (out.rows - r) bs
      let out1 :=
        if 0 < r then
          matAcc (-1) (A.slice bs 0 (min (an.length - 1) cc) A.cols)
            (out.slice (r - bs) 0 bs out.cols) out r
        else out
      triSolveRegion (A.slice 0 0 cc cc) out1 r cc)
    out0

/-- Row reversal (the C++ swap loop `swap(row k, row (rows-1-k))` for
`k < rows/2`). -/
def revRows (M : Mat) : Mat :=
  ⟨M.rows, M.cols, fun i j =>
    if i < M.rows ∧ j < M.cols then M.entries (M.rows - 1 - i) j else 0⟩

/-- One swap `std::swap(v(i), v(j))` on a vector held as a list
(out-of-range positions are left unchanged by `List.set`). -/
def swapIdx (v : List ℚ) (i j : Nat) : List ℚ :=
  (v.set i (v.getD j 0)).set j (v.getD i 0)

/-- The backward reflection loop of `DigitalFilterARMA::frequencyResponse`:
for `k < m` swap positions `k+1` and `v.length - 1 - k`. -/
def reflectVec (v : List ℚ) (m : Nat) : List ℚ :=
  (List.range m).foldl (fun w k => swapIdx w (k + 1) (w.length - 1 - k)) v

/-- The vector indices read and written by that reflection loop on the two
`length`-element padded vectors: iteration `k` (for
`k < max bnLen anLen`) touches positions `k+1` and `length - 1 - k`. -/
def reflectAccesses (bnLen anLen length : Nat) : List Nat :=
  (List.range (max bnLen anLen)).flatMap fun k => [k + 1, length - 1 - k]

/-- Zero-padded feed-forward vector of size `length`: the causal tail
`bn[bnStartIndex:]` at the start, the acausal head `bn[:bnStartIndex]`
wrapped to the end (the two `copy` calls into a zero vector). -/
def bPadVec (bn : List ℚ) (s length : Nat) : List ℚ :=
  bn.drop s ++ List.replicate (length - bn.length) 0 ++ bn.take s

/-- Zero-padded feedback vector of size `length`: `an` at offset 0. -/
def aPadVec (an : List ℚ) (length : Nat) : List ℚ :=
  an ++ List.replicate (length - an.length) 0

/-- The feedback vector actually transformed (after the backward
reflection, when configured). -/
def aPadFinal (cfg : ARMAConfig) (length : Nat) : List ℚ :=
  if cfg.backward then
    reflectVec (aPadVec cfg.an length) (max cfg.bn.length cfg.an.length)
  else aPadVec cfg.an length

/-- The feed-forward vector actually transformed (after the backward
reflection, when configured). -/
def bPadFinal (cfg : ARMAConfig) (length : Nat) : List ℚ :=
  if cfg.backward then
    reflectVec (bPadVec cfg.bn cfg.bnStartIndex length) (max cfg.bn.length cfg.an.length)
  else bPadVec cfg.bn cfg.bnStartIndex length

/-- `DigitalFilterARMA::frequencyResponse(length)`, parametric in the
forward transform `fft` (`Fourier::fft`, external to this translation
unit).  After transforming both padded coefficient vectors, each bin is
`B(k)/A(k)` where `|A(k)| > 0` and `1` otherwise. -/
def frequencyResponseARMA (fft : List ℚ → List Cplx) (cfg : ARMAConfig) (length : Nat) :
    Except Err (List Cplx) :=
  if cfg.bn.length > length ∨ cfg.an.length > length then .error .lengthTooShort
  else
    .ok (List.zipWith
      (fun a b => if 0 < Cplx.abs2 a then Cplx.div b a else Cplx.one)
      (fft (aPadFinal cfg length)) (fft (bPadFinal cfg length)))

/-- `DigitalFilterARMA::filter(input)`, parametric in the external
transform pair (`Fourier::fft` / `Fourier::synthesis`).  The frequency
path rebuilds each column as the synthesis of its spectrum multiplied by
the response; `synthesis` results are read back with default `0` (the real
synthesis returns exactly `padded.rows` samples). -/
def filterARMA (fft : List ℚ → List Cplx) (synthesis : List Cplx → Bool → List ℚ)
    (cfg : ARMAConfig) (input : Mat) : Except Err Mat :=
  if input.rows < warmup cfg.bn cfg.an cfg.bnStartIndex then .error .insufficientInput
  else if cfg.inFrequencyDomain then
    match pad input (warmup cfg.bn cfg.an cfg.bnStartIndex) cfg.bnStartIndex cfg.padType with
    | .error e => .error e
    | .ok padded =>
      match frequencyResponseARMA fft cfg padded.rows with
      | .error e => .error e
      | .ok H =>
        let filtered : Mat :=
          ⟨padded.rows, padded.cols, fun i j =>
            if i < padded.rows ∧ j < padded.cols then
              (synthesis
                (List.zipWith Cplx.mul
                  (fft ((List.range padded.rows).map fun r => padded.entries r j)) H)
                (padded.rows % 2 == 0)).getD i 0
            else 0⟩
        .ok (trim filtered (warmup cfg.bn cfg.an cfg.bnStartIndex) cfg.bnStartIndex cfg.padType)
  else
    match pad input (warmup cfg.bn cfg.an cfg.bnStartIndex) cfg.bnStartIndex cfg.padType with
    | .error e => .error e
    | .ok padded0 =>
      let padded := if cfg.backward then revRows padded0 else padded0
      let out0 := firPass cfg.bn padded
      let out1 := if 1 < cfg.an.length then arPass cfg.an out0 else out0
      let out2 := if cfg.backward then revRows out1 else out1
      .ok (trim out2 (warmup cfg.bn cfg.an cfg.bnStartIndex) cfg.bnStartIndex cfg.padType)

/-- Concrete (list-level) view of `filterARMA` results. -/
def filterE (fft : List ℚ → List Cplx) (synthesis : List Cplx → Bool → List ℚ)
    (cfg : ARMAConfig) (input : Mat) : Except Err (List (List ℚ)) :=
  (filterARMA fft synthesis cfg input).map Mat.toLists

/-- The identity ARMA filter on the time-domain path. -/
def identityCfg (t : PadType) : ARMAConfig := ⟨[1], [1], 0, false, false, t⟩

/-- A placeholder transform used to instantiate time-domain theorems
(the time-domain path never calls it). -/
def fft0 : List ℚ → List Cplx := fun v => List.replicate (v.length / 2 + 1) Cplx.zero

/-- A placeholder synthesis used to instantiate time-domain theorems. -/
def syn0 : List Cplx → Bool → List ℚ := fun _ _ => []

/-- One iteration of the chain-response loop: `F.at(k) *= H.at(k)` for
`k < H.size()`; `F.at` raises `std::out_of_range` when `H` is longer
than `F`. -/
def chainStep (F H : List Cplx) : Except Err (List Cplx) :=
  if F.length < H.length then .error .outOfRange
  else .ok (List.zipWith Cplx.mul F H ++ F.drop H.length)

/-- The member loop of `DigitalFilter::frequencyResponse`: each member's
response is multiplied into the accumulator in order. -/
def chainLoop (length : Nat) :
    List (Nat → List Cplx) → List Cplx → Except Err (List Cplx)
  | [], F => .ok F
  | m :: rest, F =>
    match chainStep F (m length) with
    | .error e => .error e
    | .ok F2 => chainLoop length rest F2

/-- `DigitalFilter::frequencyResponse(length)`: start from `(length+2)/2`
ones and multiply in every member's response (members are modelled by the
responses they return, the only thing the chain observes). -/
def chainFrequencyResponse (members : List (Nat → List Cplx)) (length : Nat) :
    Except Err (List Cplx) :=
  chainLoop length members (List.replicate ((length + 2) / 2) Cplx.one)

/-! ## Helper lemmas -/

theorem exOk_eq_true_iff {α : Type} (e : Except Err α) :
    exOk e = true ↔ ∃ a, e = .ok a := by
  cases e <;> simp [exOk]

theorem MatEq.toLists_eq {a b : Mat} (h : MatEq a b) : a.toLists = b.toLists := by
  obtain ⟨hr, hc, he⟩ := h
  unfold Mat.toLists
  rw [hr, hc]
  refine List.map_congr_left ?_
  intro i hi
  refine List.map_congr_left ?_
  intro j hj
  exact he i (hr ▸ List.mem_range.mp hi) j (hc ▸ List.mem_range.mp hj)

theorem pad_ok_spec (x : Mat) (len ts : Nat) (t : PadType) (p : Mat)
    (hne : t ≠ PadType.none) (hok : pad x len ts t = .ok p) :
    p.rows = 2 * len + x.rows + ts ∧ p.cols = x.cols ∧
      ∀ i j, len ≤ i → i < len + x.rows → j < x.cols →
        p.entries i j = x.entries (i - len) j := by
  unfold pad at hok
  rw [if_neg hne] at hok
  split at hok
  · exact absurd hok (by simp)
  split at hok
  · exact absurd hok (by simp)
  split at hok
  · exact absurd hok (by simp)
  injection hok with h
  subst h
  refine ⟨rfl, rfl, ?_⟩
  intro i j h1 h2 h3
  dsimp only
  rw [if_pos h3, if_pos ⟨h1, h2⟩]

theorem pad_ok_of_enough (x : Mat) (len ts : Nat) (t : PadType)
    (hne : t ≠ PadType.none) (h1 : 1 ≤ x.rows)
    (hp : t = PadType.periodic → len ≤ x.rows)
    (hs : t = PadType.symmetric → len + 1 ≤ x.rows) :
    exOk (pad x len ts t) = true := by
  unfold pad
  rw [if_neg hne, if_neg (by omega : ¬ x.rows < 1)]
  rw [if_neg (fun hc => absurd hc.2 (not_lt.mpr (hp hc.1)))]
  rw [if_neg (fun hc => absurd hc.2 (not_lt.mpr (hs hc.1)))]
  rfl

theorem trim_rows_of_ne_none (p : Mat) (len ts : Nat) (t : PadType)
    (hne : t ≠ PadType.none) :
    trim p len ts t =
      ⟨p.rows - 2 * len - ts, p.cols, fun i j =>
        if i < p.rows - 2 * len - ts ∧ j < p.cols then p.entries (i + len + ts) j
        else 0⟩ := by
  unfold trim
  rw [if_neg hne]

/-! ## C1: the pad/trim round trip -/

/-- C1, counterexample: with `timeShift = 1`, `length = 1`, zero padding and
the two-row input `[[1],[2]]`, `pad` succeeds but
`trim (pad x) = [[2],[0]] ≠ x`: the round trip is not the identity for a
nonzero `timeShift`, because `trim` drops `length + timeShift` leading rows
while `pad` placed the input at row offset `length`. -/
theorem trim_pad_roundtrip_counterexample :
    roundTrip (Mat.ofLists [[1], [2]]) 1 1 PadType.zero ≠
        some (Mat.ofLists [[1], [2]]).toLists ∧
      (roundTrip (Mat.ofLists [[1], [2]]) 1 1 PadType.zero).isSome = true := by
  constructor
  · decide
  · decide

/-- C1, amended: for every `padType ≠ None`, every padding length and every
input with enough rows for that policy, and `timeShift = 0`,
`trim (pad x length 0 padType) length 0 padType` equals `x` exactly, in
shape and in every value. -/
theorem trim_pad_inverse (t : PadType) (x : Mat) (len : Nat)
    (hne : t ≠ PadType.none) (h1 : 1 ≤ x.rows)
    (hp : t = PadType.periodic → len ≤ x.rows)
    (hs : t = PadType.symmetric → len + 1 ≤ x.rows) :
    ∃ p, pad x len 0 t = .ok p ∧ MatEq (trim p len 0 t) x := by
  obtain ⟨p, hok⟩ := (exOk_eq_true_iff _).mp (pad_ok_of_enough x len 0 t hne h1 hp hs)
  obtain ⟨hr, hc, he⟩ := pad_ok_spec x len 0 t p hne hok
  refine ⟨p, hok, ?_⟩
  rw [trim_rows_of_ne_none p len 0 t hne]
  refine ⟨by dsimp only; omega, by dsimp only; exact hc, ?_⟩
  intro i hi j hj
  dsimp only at hi hj ⊢
  rw [if_pos ⟨hi, hj⟩]
  have h2 := he (i + len + 0) j (by omega) (by omega) (by omega)
  rw [h2]
  have h3 : i + len + 0 - len = i := by omega
  rw [h3]

/-- C1 witness: round trip at `length = 3`, `timeShift = 0`, constant
padding, on `[[1],[2]]`. -/
theorem trim_pad_inverse_witness :
    roundTrip (Mat.ofLists [[1], [2]]) 3 0 PadType.constant =
      some (Mat.ofLists [[1], [2]]).toLists := by
  obtain ⟨p, hok, heq⟩ :=
    trim_pad_inverse PadType.constant (Mat.ofLists [[1], [2]]) 3 (by decide) (by decide)
      (fun h => PadType.noConfusion h) (fun h => PadType.noConfusion h)
  unfold roundTrip
  rw [hok]
  exact congrArg some heq.toLists_eq

/-! ## C2: the spec's warmup example -/

/-- C2, counterexample: for `bn` of length 5, `bnStartIndex = 2` and `an` of
length 1 the code computes `max(max(5-2-1, 2), 3*1) = 3`, not the claimed 2
(the claim's `max(5−2−1, 2, 0)` treats the `3·length(an)` term as 0). -/
theorem warmup_spec_example_counterexample :
    warmup [1, 1, 1, 1, 1] [1] 2 ≠ 2 := by decide

/-- C2, amended: for a filter with `bn` of length 5, `bnStartIndex = 2` and
`an` of length 1, `warmup()` returns `max(5−2−1, 2, 3·1) = 3`. -/
theorem warmup_len5_start2 (bn an : List ℚ) (h5 : bn.length = 5)
    (h1 : an.length = 1) : warmup bn an 2 = 3 := by
  unfold warmup
  rw [h5, h1]
  decide

/-- C2 witness. -/
theorem warmup_len5_start2_witness : warmup [1, 1, 1, 1, 1] [1] 2 = 3 :=
  warmup_len5_start2 [1, 1, 1, 1, 1] [1] (by decide) (by decide)

/-! ## C3: the warmup closed form -/

/-- C3: for non-empty `bn` and `an` and `0 ≤ bnStartIndex < length bn`,
`warmup()` equals `max(length(bn) − bnStartIndex − 1, bnStartIndex,
3·length(an))`, with the subtraction read over ℤ (the hypothesis
`bnStartIndex < length bn` makes the C++ unsigned subtraction agree with
it). -/
theorem warmup_closed_form (bn an : List ℚ) (s : Nat)
    (_hbn : bn ≠ []) (_han : an ≠ []) (hs : s < bn.length) :
    (warmup bn an s : ℤ) =
      max (max ((bn.length : ℤ) - (s : ℤ) - 1) (s : ℤ)) (3 * (an.length : ℤ)) := by
  unfold warmup
  omega

/-- C3 witness. -/
theorem warmup_closed_form_witness : (warmup [(1 : ℚ), 1] [1] 1 : ℤ) = 3 := by
  have h := warmup_closed_form [(1 : ℚ), 1] [1] 1 (by decide) (by decide) (by decide)
  simpa using h

/-! ## C7: pad error conditions -/

/-- C7: every `padType ≠ None` rejects an empty input with
`ZeroLengthInput`; on non-empty input, periodic padding raises
`InvalidPadding` exactly when `rows < length`, symmetric exactly when
`rows < length + 1`, and zero/constant padding always succeed. -/
theorem pad_error_conditions (x : Mat) (len ts : Nat) :
    (∀ t, t ≠ PadType.none → x.rows = 0 →
        pad x len ts t = .error .zeroLengthInput) ∧
      (1 ≤ x.rows →
        ((pad x len ts PadType.periodic = .error .invalidPadding) ↔ x.rows < len)) ∧
      (1 ≤ x.rows →
        ((pad x len ts PadType.symmetric = .error .invalidPadding) ↔ x.rows < len + 1)) ∧
      (1 ≤ x.rows →
        exOk (pad x len ts PadType.zero) = true ∧
          exOk (pad x len ts PadType.constant) = true) := by
  refine ⟨?_, ?_, ?_, ?_⟩
  · intro t hne h0
    unfold pad
    rw [if_neg hne, if_pos (by omega)]
  · intro h1
    constructor
    · intro heq
      by_contra hge
      unfold pad at heq
      rw [if_neg (by decide), if_neg (by omega)] at heq
      rw [if_neg (fun hc => hge hc.2)] at heq
      rw [if_neg (fun hc => PadType.noConfusion hc.1)] at heq
      exact absurd heq (by simp)
    · intro hlt
      unfold pad
      rw [if_neg (by decide), if_neg (by omega), if_pos ⟨rfl, hlt⟩]
  · intro h1
    constructor
    · intro heq
      by_contra hge
      unfold pad at heq
      rw [if_neg (by decide), if_neg (by omega)] at heq
      rw [if_neg (fun hc => PadType.noConfusion hc.1)] at heq
      rw [if_neg (fun hc => hge hc.2)] at heq
      exact absurd heq (by simp)
    · intro hlt
      unfold pad
      rw [if_neg (by decide), if_neg (by omega)]
      rw [if_neg (fun hc => PadType.noConfusion hc.1), if_pos ⟨rfl, hlt⟩]
  · intro h1
    constructor
    · unfold pad
      rw [if_neg (by decide), if_neg (by omega)]
      rw [if_neg (fun hc => PadType.noConfusion hc.1)]
      rw [if_neg (fun hc => PadType.noConfusion hc.1)]
      rfl
    · unfold pad
      rw [if_neg (by decide), if_neg (by omega)]
      rw [if_neg (fun hc => PadType.noConfusion hc.1)]
      rw [if_neg (fun hc => PadType.noConfusion hc.1)]
      rfl

/-- C7 witness: a two-row input with `length = 3`. -/
theorem pad_error_conditions_witness :
    pad (Mat.ofLists [[1], [2]]) 3 0 PadType.periodic = .error .invalidPadding ∧
      exOk (pad (Mat.ofLists [[1], [2]]) 3 0 PadType.zero) = true := by
  have h := pad_error_conditions (Mat.ofLists [[1], [2]]) 3 0
  exact ⟨(h.2.1 (by decide)).mpr (by decide), (h.2.2.2 (by decide)).1⟩

/-! ## Structural lemmas for the blocked time-domain algorithm -/

theorem Mat.slice_entries (a : Mat) (r c h w i j : Nat) :
    (a.slice r c h w).entries i j =
      if i < h ∧ j < w then a.entries (r + i) (c + j) else 0 := rfl

theorem matAcc_entries (alpha : ℚ) (A X M : Mat) (r i j : Nat) :
    (matAcc alpha A X M r).entries i j =
      if r ≤ i ∧ i < r + A.rows ∧ j < X.cols then
        M.entries i j + alpha * dotp A X (i - r) j
      else M.entries i j := rfl

theorem bandedMat_entries (v : List ℚ) (bs i j : Nat) :
    (bandedMat v bs).entries i j =
      if j ≤ i ∧ i < j + v.length then v.getD (i - j) 0 else 0 := rfl

theorem le_numBlocks_mul (rows bs : Nat) (hbs : 0 < bs) :
    rows ≤ numBlocks rows bs * bs := by
  unfold numBlocks
  by_contra hlt
  push_neg at hlt
  have h : ((rows + bs - 1) / bs + 1) * bs ≤ rows + bs - 1 := by
    rw [Nat.add_mul, Nat.one_mul]
    omega
  have h2 := (Nat.le_div_iff_mul_le hbs).mpr h
  omega

theorem foldl_mat_shape {β : Type} (f : Mat → β → Mat) (l : List β) (init : Mat)
    (h : ∀ M b, (f M b).rows = M.rows ∧ (f M b).cols = M.cols) :
    (l.foldl f init).rows = init.rows ∧ (l.foldl f init).cols = init.cols := by
  induction l generalizing init with
  | nil => exact ⟨rfl, rfl⟩
  | cons b rest ih =>
    rw [List.foldl_cons]
    obtain ⟨h1, h2⟩ := ih (f init b)
    exact ⟨h1.trans (h init b).1, h2.trans (h init b).2⟩

theorem firPass_shape (bn : List ℚ) (P : Mat) :
    (firPass bn P).rows = P.rows ∧ (firPass bn P).cols = P.cols := by
  unfold firPass
  exact foldl_mat_shape _ _ _ (fun M b => ⟨rfl, rfl⟩)

theorem arPass_shape (an : List ℚ) (M0 : Mat) :
    (arPass an M0).rows = M0.rows ∧ (arPass an M0).cols = M0.cols := by
  unfold arPass
  refine foldl_mat_shape _ _ _ (fun M b => ?_)
  constructor
  · show (if 0 < b * min 64 M0.rows then _ else M).rows = M.rows
    split <;> rfl
  · show (if 0 < b * min 64 M0.rows then _ else M).cols = M.cols
    split <;> rfl

/-- The inner product of a row of the sliced banded matrix built from
`bn = [1]` with a column of the sliced padded block reproduces the padded
entry: the banded matrix is the identity. -/
theorem dotp_one_identity (P : Mat) (bs r i j : Nat)
    (hj : j < P.cols) (hir : r ≤ i) (hlt : i < r + min (P.rows - r) bs) :
    dotp ((bandedMat [(1 : ℚ)] bs).slice 0 0
        (min (P.rows - r) (bandedMat [(1 : ℚ)] bs).rows) (min (P.rows - r) bs))
      (P.slice r 0 (min (P.rows - r) bs) P.cols) (i - r) j = P.entries i j := by
  have hbrows : (bandedMat [(1 : ℚ)] bs).rows = 1 + bs - 1 := rfl
  unfold dotp
  rw [show ((bandedMat [(1 : ℚ)] bs).slice 0 0
      (min (P.rows - r) (bandedMat [(1 : ℚ)] bs).rows) (min (P.rows - r) bs)).cols =
      min (P.rows - r) bs from rfl]
  rw [Finset.sum_eq_single (i - r)]
  · rw [Mat.slice_entries, Mat.slice_entries]
    rw [if_pos ⟨by omega, by omega⟩, if_pos ⟨by omega, hj⟩]
    rw [Nat.zero_add, Nat.zero_add, bandedMat_entries]
    rw [if_pos ⟨Nat.le_refl _, by simp⟩]
    have h1 : i - r - (i - r) = 0 := by omega
    have h2 : r + (i - r) = i := by omega
    rw [h1, h2]
    norm_num
  · intro k hk hne
    rw [Mat.slice_entries]
    split
    · rw [Nat.zero_add, Nat.zero_add, bandedMat_entries]
      rw [if_neg (by simp; omega)]
      rw [zero_mul]
    · rw [zero_mul]
  · intro habs
    exact absurd (Finset.mem_range.mpr (by omega)) habs

/-- Invariant of the feed-forward fold for `bn = [1]`: after `n` blocks the
first `min (n*bs) P.rows` rows hold the padded entries and the rest of the
output is still zero. -/
theorem firPass_one_aux (P : Mat) (bs : Nat) (n : Nat) :
    ∀ i j, j < P.cols →
      (((List.range n).foldl
          (fun out m =>
            matAcc 1
              ((bandedMat [(1 : ℚ)] bs).slice 0 0
                (min (P.rows - m * bs) (bandedMat [(1 : ℚ)] bs).rows)
                (min (P.rows - m * bs) bs))
              (P.slice (m * bs) 0 (min (P.rows - m * bs) bs) P.cols) out (m * bs))
          (Mat.zero P.rows P.cols)).entries i j) =
        if i < min (n * bs) P.rows then P.entries i j else 0 := by
  induction n with
  | zero =>
    intro i j hj
    rw [List.range_zero, List.foldl_nil]
    rw [if_neg (by omega)]
    rfl
  | succ n ih =>
    intro i j hj
    have hsm : (n + 1) * bs = n * bs + bs := by ring
    have hbrows : (bandedMat [(1 : ℚ)] bs).rows = 1 + bs - 1 := rfl
    rw [List.range_succ, List.foldl_append, List.foldl_cons, List.foldl_nil]
    rw [matAcc_entries]
    rw [show ((bandedMat [(1 : ℚ)] bs).slice 0 0
        (min (P.rows - n * bs) (bandedMat [(1 : ℚ)] bs).rows)
        (min (P.rows - n * bs) bs)).rows =
        min (P.rows - n * bs) (bandedMat [(1 : ℚ)] bs).rows from rfl]
    rw [show (P.slice (n * bs) 0 (min (P.rows - n * bs) bs) P.cols).cols = P.cols from rfl]
    split
    · next hguard =>
      obtain ⟨hg1, hg2, -⟩ := hguard
      rw [ih i j hj, if_neg (by omega)]
      rw [dotp_one_identity P bs (n * bs) i j hj hg1 (by omega)]
      rw [if_pos (by omega)]
      norm_num
    · next hguard =>
      rw [ih i j hj]
      by_cases hc2 : i < P.rows
      · by_cases hcase : i < n * bs
        · rw [if_pos (by omega), if_pos (by omega)]
        · have hnot : ¬i < n * bs +
              min (P.rows - n * bs) (bandedMat [(1 : ℚ)] bs).rows := by
            intro hc
            exact hguard ⟨by omega, hc, hj⟩
          rw [if_neg (by omega), if_neg (by omega)]
      · rw [if_neg (by omega), if_neg (by omega)]

/-- The feed-forward pass with `bn = [1]` is the identity on the padded
matrix (in-range entries). -/
theorem firPass_one_entries (P : Mat) (i j : Nat) (hi : i < P.rows) (hj : j < P.cols) :
    (firPass [(1 : ℚ)] P).entries i j = P.entries i j := by
  have hbs : 0 < min 64 P.rows := by omega
  have h := firPass_one_aux P (min 64 P.rows) (numBlocks P.rows (min 64 P.rows)) i j hj
  have hle := le_numBlocks_mul P.rows (min 64 P.rows) hbs
  unfold firPass
  rw [h, if_pos (by omega)]

/-! ## C8: input shorter than the warmup length -/

/-- C8: for every input with fewer rows than `warmup()`, `filter` raises
`InsufficientInputLength`; the check is the first statement of the
function, before any padding or filtering. -/
theorem filter_rejects_short_input (fft : List ℚ → List Cplx)
    (synthesis : List Cplx → Bool → List ℚ) (cfg : ARMAConfig) (x : Mat)
    (h : x.rows < warmup cfg.bn cfg.an cfg.bnStartIndex) :
    filterARMA fft synthesis cfg x = .error .insufficientInput := by
  unfold filterARMA
  rw [if_pos h]

/-- C8 witness: one row against the identity filter's warmup of 3. -/
theorem filter_rejects_short_input_witness :
    filterARMA fft0 syn0 (identityCfg PadType.zero) (Mat.ofLists [[1]]) =
      .error .insufficientInput :=
  filter_rejects_short_input fft0 syn0 (identityCfg PadType.zero)
    (Mat.ofLists [[1]]) (by decide)

/-! ## C5: the guarded division in the frequency response -/

/-- C5: whenever `DigitalFilterARMA::frequencyResponse` succeeds, the bin
`k` of the result is `B(k)/A(k)` where the feedback spectrum satisfies
`|A(k)| > 0`, and is exactly `1` where `|A(k)| = 0`; the zero denominator
is never divided by (so, in the exact model of the `Double` arithmetic,
no NaN/Infinity arises) and raises no error. -/
theorem freq_response_zero_denominator (fft : List ℚ → List Cplx)
    (cfg : ARMAConfig) (length : Nat) (F : List Cplx)
    (hok : frequencyResponseARMA fft cfg length = .ok F) :
    ∀ k, k < F.length →
      F.getD k Cplx.one =
        if 0 < Cplx.abs2 ((fft (aPadFinal cfg length)).getD k Cplx.zero) then
          Cplx.div ((fft (bPadFinal cfg length)).getD k Cplx.zero)
            ((fft (aPadFinal cfg length)).getD k Cplx.zero)
        else Cplx.one := by
  unfold frequencyResponseARMA at hok
  split at hok
  · exact absurd hok (by simp)
  injection hok with h
  subst h
  intro k hk
  rw [List.length_zipWith] at hk
  have hA : k < (fft (aPadFinal cfg length)).length :=
    lt_of_lt_of_le hk (min_le_left _ _)
  have hB : k < (fft (bPadFinal cfg length)).length :=
    lt_of_lt_of_le hk (min_le_right _ _)
  rw [List.getD_eq_getElem _ _ (by rw [List.length_zipWith]; exact hk)]
  rw [List.getElem_zipWith]
  rw [List.getD_eq_getElem _ _ hA, List.getD_eq_getElem _ _ hB]

/-- C5 witness: a transform returning the all-zero spectrum exercises the
`|A(k)| = 0` branch; the response bin is `1`. -/
theorem freq_response_zero_denominator_witness :
    [Cplx.one, Cplx.one].getD 0 Cplx.one =
      if 0 < Cplx.abs2 ((fft0 (aPadFinal (identityCfg PadType.zero) 2)).getD 0 Cplx.zero) then
        Cplx.div ((fft0 (bPadFinal (identityCfg PadType.zero) 2)).getD 0 Cplx.zero)
          ((fft0 (aPadFinal (identityCfg PadType.zero) 2)).getD 0 Cplx.zero)
      else Cplx.one := by
  have hok : frequencyResponseARMA fft0 (identityCfg PadType.zero) 2 =
      .ok [Cplx.one, Cplx.one] := by
    unfold frequencyResponseARMA identityCfg aPadFinal bPadFinal aPadVec bPadVec fft0
    norm_num [Cplx.abs2, Cplx.zero, List.replicate]
  exact freq_response_zero_denominator fft0 (identityCfg PadType.zero) 2
    [Cplx.one, Cplx.one] hok 0 (by decide)

/-! ## C6: the chain response is the product of the member responses -/

theorem Cplx.mul_assoc' (a b c : Cplx) :
    Cplx.mul (Cplx.mul a b) c = Cplx.mul a (Cplx.mul b c) := by
  cases a; cases b; cases c
  simp only [Cplx.mul, Cplx.mk.injEq]
  constructor <;> ring

theorem Cplx.mul_one' (a : Cplx) : Cplx.mul a 1 = a := by
  cases a
  show Cplx.mul _ Cplx.one = _
  simp [Cplx.mul, Cplx.one]

theorem Cplx.one_mul' (a : Cplx) : Cplx.mul Cplx.one a = a := by
  cases a
  simp [Cplx.mul, Cplx.one]

theorem getD_zipWith_mul (a b : List Cplx) (k : Nat) (d : Cplx)
    (ha : k < a.length) (hb : k < b.length) :
    (List.zipWith Cplx.mul a b).getD k d = Cplx.mul (a.getD k d) (b.getD k d) := by
  rw [List.getD_eq_getElem _ _ (by rw [List.length_zipWith]; omega),
    List.getD_eq_getElem _ _ ha, List.getD_eq_getElem _ _ hb, List.getElem_zipWith]

theorem chainLoop_ok (length : Nat) (members : List (Nat → List Cplx)) :
    ∀ F0 : List Cplx, (∀ m ∈ members, (m length).length = F0.length) →
      ∃ F, chainLoop length members F0 = .ok F ∧ F.length = F0.length ∧
        ∀ k, k < F0.length →
          F.getD k Cplx.one =
            Cplx.mul (F0.getD k Cplx.one)
              ((members.map fun m => (m length).getD k Cplx.one).prod) := by
  induction members with
  | nil =>
    intro F0 _
    refine ⟨F0, rfl, rfl, fun k _ => ?_⟩
    simp only [List.map_nil, List.prod_nil]
    rw [Cplx.mul_one']
  | cons m rest ih =>
    intro F0 h
    have hm : (m length).length = F0.length := h m (by simp)
    have hstep : chainStep F0 (m length) = .ok (List.zipWith Cplx.mul F0 (m length)) := by
      unfold chainStep
      rw [if_neg (by omega), hm, List.drop_length, List.append_nil]
    have hlen1 : (List.zipWith Cplx.mul F0 (m length)).length = F0.length := by
      rw [List.length_zipWith, hm]
      omega
    obtain ⟨F, hF, hFlen, hFk⟩ :=
      ih (List.zipWith Cplx.mul F0 (m length))
        (fun m2 hm2 => by rw [hlen1]; exact h m2 (by simp [hm2]))
    refine ⟨F, ?_, by rw [hFlen, hlen1], ?_⟩
    · unfold chainLoop
      rw [hstep]
      exact hF
    · intro k hk
      rw [hFk k (by rw [hlen1]; exact hk)]
      rw [getD_zipWith_mul F0 (m length) k Cplx.one hk (by rw [hm]; exact hk)]
      simp only [List.map_cons, List.prod_cons]
      rw [Cplx.mul_assoc']
      rfl

/-- C6: `DigitalFilter::frequencyResponse(length)` on a chain whose members
each return `(length+2)/2` bins yields `(length+2)/2` values, bin `k` being
the product of every member's bin `k` (starting from `1+0i`); for the
empty chain it is the all-ones vector of that size. -/
theorem chain_frequency_response_product (members : List (Nat → List Cplx))
    (length : Nat) (h : ∀ m ∈ members, (m length).length = (length + 2) / 2) :
    (∃ F, chainFrequencyResponse members length = .ok F ∧
        F.length = (length + 2) / 2 ∧
        ∀ k, k < (length + 2) / 2 →
          F.getD k Cplx.one = ((members.map fun m => (m length).getD k Cplx.one)).prod) ∧
      chainFrequencyResponse [] length = .ok (List.replicate ((length + 2) / 2) Cplx.one) := by
  constructor
  · obtain ⟨F, hF, hlen, hk⟩ :=
      chainLoop_ok length members (List.replicate ((length + 2) / 2) Cplx.one)
        (by simpa using h)
    refine ⟨F, hF, by simpa using hlen, ?_⟩
    intro k hkk
    rw [hk k (by simpa using hkk)]
    rw [List.getD_eq_getElem _ _ (by simpa using hkk), List.getElem_replicate]
    rw [Cplx.one_mul']
  · rfl

/-- C6 witness: a one-member chain at `length = 2`. -/
theorem chain_frequency_response_product_witness :
    (chainFrequencyResponse [fun _ => [⟨2, 0⟩, ⟨3, 0⟩]] 2).map
        (fun F => F.getD 0 Cplx.one) =
      .ok (([fun _ => [(⟨2, 0⟩ : Cplx), ⟨3, 0⟩]].map
        fun m => (m 2).getD 0 Cplx.one)).prod := by
  obtain ⟨⟨F, hF, _, hk⟩, -⟩ :=
    chain_frequency_response_product [fun _ => [⟨2, 0⟩, ⟨3, 0⟩]] 2
      (by intro m hm; rw [List.mem_singleton] at hm; subst hm; rfl)
  rw [hF]
  exact congrArg Except.ok (hk 0 (by norm_num))

/-! ## C4: the identity filter -/

/-- C4, counterexample: the identity filter does not return every input
unchanged: an input with fewer rows than the warmup length (here, the empty
input against `warmup() = 3`) is rejected with `InsufficientInputLength`
instead of being returned. -/
theorem identity_filter_counterexample :
    filterE fft0 syn0 (identityCfg PadType.zero) (Mat.ofLists []) =
        .error .insufficientInput ∧
      filterE fft0 syn0 (identityCfg PadType.zero) (Mat.ofLists []) ≠
        .ok (Mat.ofLists ([] : List (List ℚ))).toLists := by
  refine ⟨rfl, ?_⟩
  intro h
  rw [show filterE fft0 syn0 (identityCfg PadType.zero) (Mat.ofLists []) =
      .error .insufficientInput from rfl] at h
  exact Except.noConfusion h

/-- C4, amended: the identity filter (`bn = [1]`, `an = [1]`,
`bnStartIndex = 0`, forward, time-domain path) returns the input unchanged
under any `padType`, for every input with at least `warmup() = 3` rows
(and at least 4 rows when `padType = Symmetric`, as symmetric padding
requires `rows ≥ length + 1`). -/
theorem identity_filter_returns_input (fft : List ℚ → List Cplx)
    (synthesis : List Cplx → Bool → List ℚ) (t : PadType) (x : Mat)
    (h3 : 3 ≤ x.rows) (hsym : t = PadType.symmetric → 4 ≤ x.rows) :
    ∃ y, filterARMA fft synthesis (identityCfg t) x = .ok y ∧ MatEq y x := by
  have hw : warmup [(1 : ℚ)] [(1 : ℚ)] 0 = 3 := rfl
  by_cases ht : t = PadType.none
  · subst ht
    have hpad : pad x 3 0 PadType.none = .ok x := by
      unfold pad
      rw [if_pos rfl, if_neg (by omega)]
    refine ⟨firPass [(1 : ℚ)] x, ?_, ?_⟩
    · unfold filterARMA
      dsimp only [identityCfg]
      rw [hw, if_neg (by omega), hpad]
      rfl
    · obtain ⟨hr, hc⟩ := firPass_shape [(1 : ℚ)] x
      exact ⟨hr, hc, fun i hi j hj =>
        firPass_one_entries x i j (hr ▸ hi) (hc ▸ hj)⟩
  · obtain ⟨p, hok⟩ := (exOk_eq_true_iff _).mp
      (pad_ok_of_enough x 3 0 t ht (by omega) (fun _ => h3) hsym)
    obtain ⟨hpr, hpc, hpe⟩ := pad_ok_spec x 3 0 t p ht hok
    obtain ⟨hfr, hfc⟩ := firPass_shape [(1 : ℚ)] p
    refine ⟨trim (firPass [(1 : ℚ)] p) 3 0 t, ?_, ?_⟩
    · unfold filterARMA
      dsimp only [identityCfg]
      rw [hw, if_neg (by omega), hok]
      rfl
    · rw [trim_rows_of_ne_none _ 3 0 t ht]
      refine ⟨by dsimp only; omega, by dsimp only; rw [hfc, hpc], ?_⟩
      intro i hi j hj
      dsimp only at hi hj ⊢
      rw [if_pos ⟨hi, hj⟩]
      rw [firPass_one_entries p (i + 3 + 0) j (by omega) (by omega)]
      rw [hpe (i + 3 + 0) j (by omega) (by omega) (by omega)]
      have h4 : i + 3 + 0 - 3 = i := by omega
      rw [h4]

/-- C4 witness: the identity filter on a three-row input with zero
padding. -/
theorem identity_filter_returns_input_witness :
    (filterARMA fft0 syn0 (identityCfg PadType.zero)
        (Mat.ofLists [[1], [2], [3]])).toOption.map Mat.toLists =
      some (Mat.ofLists [[1], [2], [3]]).toLists := by
  obtain ⟨y, hy, heq⟩ :=
    identity_filter_returns_input fft0 syn0 PadType.zero
      (Mat.ofLists [[1], [2], [3]]) (by decide) (fun h => PadType.noConfusion h)
  rw [hy]
  exact congrArg some heq.toLists_eq

/-! ## C10: the filter preserves the input shape -/

theorem pad_ok_shape (x : Mat) (len ts : Nat) (t : PadType) (p : Mat)
    (hok : pad x len ts t = .ok p) :
    p.cols = x.cols ∧
      ((t = PadType.none ∧ ts = 0 ∧ p.rows = x.rows) ∨
        (t = PadType.none ∧ 0 < ts ∧ p.rows = x.rows + ts) ∨
        (t ≠ PadType.none ∧ p.rows = 2 * len + x.rows + ts)) := by
  by_cases ht : t = PadType.none
  · unfold pad at hok
    rw [if_pos ht] at hok
    by_cases hts : 0 < ts
    · rw [if_pos hts] at hok
      injection hok with h
      subst h
      exact ⟨rfl, Or.inr (Or.inl ⟨ht, hts, rfl⟩)⟩
    · rw [if_neg hts] at hok
      injection hok with h
      subst h
      exact ⟨rfl, Or.inl ⟨ht, by omega, rfl⟩⟩
  · obtain ⟨hr, hc, -⟩ := pad_ok_spec x len ts t p ht hok
    exact ⟨hc, Or.inr (Or.inr ⟨ht, hr⟩)⟩

theorem trim_shape (M : Mat) (len ts : Nat) (t : PadType) :
    (trim M len ts t).cols = M.cols ∧
      (trim M len ts t).rows =
        if t = PadType.none then (if 0 < ts then M.rows - ts else M.rows)
        else M.rows - 2 * len - ts := by
  unfold trim
  by_cases ht : t = PadType.none
  · rw [if_pos ht, if_pos ht]
    by_cases hts : 0 < ts
    · rw [if_pos hts, if_pos hts]
      exact ⟨rfl, rfl⟩
    · rw [if_neg hts, if_neg hts]
      exact ⟨rfl, rfl⟩
  · rw [if_neg ht, if_neg ht]
    exact ⟨rfl, rfl⟩

/-- C10: for every configuration (every `padType`, including `None` with a
nonzero `bnStartIndex`, on either evaluation path) and every input on which
`DigitalFilterARMA::filter` returns without an error, the output has
exactly the rows and columns of the input. -/
theorem filter_preserves_shape (fft : List ℚ → List Cplx)
    (synthesis : List Cplx → Bool → List ℚ) (cfg : ARMAConfig) (x y : Mat)
    (hok : filterARMA fft synthesis cfg x = .ok y) :
    y.rows = x.rows ∧ y.cols = x.cols := by
  have hb : ∀ M : Mat, (if cfg.backward then revRows M else M).rows = M.rows ∧
      (if cfg.backward then revRows M else M).cols = M.cols := by
    intro M
    split <;> exact ⟨rfl, rfl⟩
  have ha : ∀ M : Mat, (if 1 < cfg.an.length then arPass cfg.an M else M).rows = M.rows ∧
      (if 1 < cfg.an.length then arPass cfg.an M else M).cols = M.cols := by
    intro M
    split
    · exact arPass_shape cfg.an M
    · exact ⟨rfl, rfl⟩
  unfold filterARMA at hok
  split at hok
  · exact absurd hok (by simp)
  split at hok
  · -- frequency-domain path
    split at hok
    · exact absurd hok (by simp)
    rename_i padded hpad
    split at hok
    · exact absurd hok (by simp)
    rename_i H hH
    injection hok with h
    subst h
    obtain ⟨hpc, hcases⟩ := pad_ok_shape x _ _ _ padded hpad
    obtain ⟨htc, htr⟩ := trim_shape ⟨padded.rows, padded.cols, _⟩ _ cfg.bnStartIndex cfg.padType
    refine ⟨?_, ?_⟩
    · rw [htr]
      rcases hcases with ⟨ht, hts, hr⟩ | ⟨ht, hts, hr⟩ | ⟨ht, hr⟩
      · rw [if_pos ht, if_neg (by omega)]
        exact hr
      · rw [if_pos ht, if_pos hts]
        dsimp only
        omega
      · rw [if_neg ht]
        dsimp only
        omega
    · rw [htc]
      exact hpc
  · -- time-domain path
    split at hok
    · exact absurd hok (by simp)
    rename_i padded0 hpad
    injection hok with h
    subst h
    obtain ⟨hpc, hcases⟩ := pad_ok_shape x _ _ _ padded0 hpad
    obtain ⟨hb1, hb2⟩ := hb padded0
    obtain ⟨hf1, hf2⟩ := firPass_shape cfg.bn (if cfg.backward then revRows padded0 else padded0)
    obtain ⟨ha1, ha2⟩ := ha (firPass cfg.bn (if cfg.backward then revRows padded0 else padded0))
    obtain ⟨hb1', hb2'⟩ := hb (if 1 < cfg.an.length then
      arPass cfg.an (firPass cfg.bn (if cfg.backward then revRows padded0 else padded0))
      else firPass cfg.bn (if cfg.backward then revRows padded0 else padded0))
    obtain ⟨htc, htr⟩ := trim_shape _ (warmup cfg.bn cfg.an cfg.bnStartIndex)
      cfg.bnStartIndex cfg.padType
    refine ⟨?_, ?_⟩
    · rw [htr, hb1', ha1, hf1, hb1]
      rcases hcases with ⟨ht, hts, hr⟩ | ⟨ht, hts, hr⟩ | ⟨ht, hr⟩
      · rw [if_pos ht, if_neg (by omega)]
        exact hr
      · rw [if_pos ht, if_pos hts]
        omega
      · rw [if_neg ht]
        omega
    · rw [htc, hb2', ha2, hf2, hb2]
      exact hpc

/-- C10 witness: the identity configuration on a 3×1 input returns a 3×1
output. -/
theorem filter_preserves_shape_witness :
    (filterARMA fft0 syn0 (identityCfg PadType.zero)
        (Mat.ofLists [[1], [2], [3]])).map (fun y => (y.rows, y.cols)) =
      .ok (3, 1) := by
  obtain ⟨y, hy⟩ : ∃ y, filterARMA fft0 syn0 (identityCfg PadType.zero)
      (Mat.ofLists [[1], [2], [3]]) = .ok y := ⟨_, rfl⟩
  have h := filter_preserves_shape fft0 syn0 (identityCfg PadType.zero)
    (Mat.ofLists [[1], [2], [3]]) y hy
  rw [hy]
  show Except.ok (y.rows, y.cols) = Except.ok (3, 1)
  rw [h.1, h.2]
  rfl

/-! ## C9: the backward coefficient-reflection loop -/

/-- C9 (the code is wrong here): with `bn` of length 2, `an` of length 1 and
`length = 2`, both precondition checks `length(bn) ≤ length` and
`length(an) ≤ length` pass, yet iteration `k = 1` of the reflection loop
accesses index `k + 1 = 2 = length`, which is out of bounds for the two
`length`-element padded vectors. -/
theorem reflect_loop_out_of_bounds :
    2 ≤ 2 ∧ 1 ≤ 2 ∧ 2 ∈ reflectAccesses 2 1 2 ∧ ¬2 < 2 := by decide

end GroopsDigitalFilter
